import Mathlib

/-!
Shallow embedding of `src/tarefa_prioridade.py`, a strict-priority task
manager: tasks carry an integer priority class, the manager keeps one FIFO
queue per recognized class (the constructor installs classes 1, 2, 3) and
serves tasks by scanning the recognized classes in ascending order.

Python dictionaries are embedded as association lists, mutation as explicit
state passing: a method that can mutate the manager returns a pair of its
result and the updated manager.
-/

/-- A task: name, description, priority class (`Tarefa.__init__`). -/
structure Tarefa where
  nome : String
  descricao : String
  prioridade : Int
deriving DecidableEq, Repr

/-- The label dictionary lookup in `Tarefa.__str__`:
`{1: "Alta", 2: "Média", 3: "Baixa"}.get(self.prioridade, "Desconhecida")`. -/
def prioridade_texto (p : Int) : String :=
  (([(1, "Alta"), (2, "Média"), (3, "Baixa")] : List (Int × String)).lookup p).getD
    "Desconhecida"

/-- Embeds `Tarefa.__str__`: human-readable rendering of a task. -/
def Tarefa.render (t : Tarefa) : String :=
  "Tarefa: " ++ t.nome ++ " (Prioridade: " ++ prioridade_texto t.prioridade ++
    ")\nDescrição: " ++ t.descricao

/-- Embeds `FilaTarefas`: a FIFO queue of tasks backed by a Python list. -/
structure FilaTarefas where
  tarefas : List Tarefa
deriving DecidableEq, Repr

/-- Embeds `FilaTarefas.__init__`: the empty queue. -/
def FilaTarefas.nova : FilaTarefas := ⟨[]⟩

/-- Embeds `FilaTarefas.adicionar`: append a task at the tail (`list.append`). -/
def FilaTarefas.adicionar (f : FilaTarefas) (t : Tarefa) : FilaTarefas :=
  ⟨f.tarefas ++ [t]⟩

/-- Embeds `FilaTarefas.esta_vazia`: `len(self.tarefas) == 0`. -/
def FilaTarefas.esta_vazia (f : FilaTarefas) : Bool :=
  f.tarefas.length == 0

/-- Embeds `FilaTarefas.remover`: `pop(0)` when non-empty, else `None`;
returns the removed task and the updated queue. -/
def FilaTarefas.remover (f : FilaTarefas) : Option Tarefa × FilaTarefas :=
  if ¬ f.esta_vazia then (f.tarefas.head?, ⟨f.tarefas.tail⟩) else (none, f)

/-- Embeds `FilaTarefas.frente`: the head without removal, `None` when empty. -/
def FilaTarefas.frente (f : FilaTarefas) : Option Tarefa :=
  if ¬ f.esta_vazia then f.tarefas.head? else none

/-- Embeds `FilaTarefas.tamanho`: `len(self.tarefas)`. -/
def FilaTarefas.tamanho (f : FilaTarefas) : Nat :=
  f.tarefas.length

/-- Embeds `GerenciadorTarefas`: the dict `filas_prioridades` mapping each
recognized priority class to its queue, as an association list. -/
structure GerenciadorTarefas where
  filas_prioridades : List (Int × FilaTarefas)
deriving DecidableEq, Repr

/-- Embeds `GerenciadorTarefas.__init__`: queues for classes 1 (alta),
2 (média) and 3 (baixa), each empty. -/
def GerenciadorTarefas.init : GerenciadorTarefas :=
  ⟨[(1, FilaTarefas.nova), (2, FilaTarefas.nova), (3, FilaTarefas.nova)]⟩

/-- Writing back a queue into the dict: `self.filas_prioridades[p] = f`
for a key `p` already present (entries whose key differs are untouched). -/
def updateFila : List (Int × FilaTarefas) → Int → FilaTarefas →
    List (Int × FilaTarefas)
  | [], _, _ => []
  | kv :: rest, p, f =>
      match kv.1 == p with
      | true => (p, f) :: updateFila rest p f
      | false => kv :: updateFila rest p f

/-- The recognized classes: the dict's key list. -/
def GerenciadorTarefas.chaves (g : GerenciadorTarefas) : List Int :=
  g.filas_prioridades.map Prod.fst

/-- Dict read `self.filas_prioridades[p]` (defaulting on the unreachable
missing-key path). -/
def GerenciadorTarefas.fila (g : GerenciadorTarefas) (p : Int) : FilaTarefas :=
  (g.filas_prioridades.lookup p).getD FilaTarefas.nova

/-- Embeds `GerenciadorTarefas.adicionar_tarefa`: reject when the task's priority
is not a dict key, otherwise append the task to the matching queue and
report success. -/
def GerenciadorTarefas.adicionar_tarefa (g : GerenciadorTarefas) (t : Tarefa) :
    Bool × GerenciadorTarefas :=
  match g.filas_prioridades.lookup t.prioridade with
  | none => (false, g)
  | some f =>
      (true, ⟨updateFila g.filas_prioridades t.prioridade (f.adicionar t)⟩)

/-- Insertion into a list kept in ascending order. -/
def insereOrdenado (x : Int) : List Int → List Int
  | [] => [x]
  | y :: ys => if x ≤ y then x :: y :: ys else y :: insereOrdenado x ys

/-- Embeds `sorted(keys)`: the key list in ascending order. -/
def ordenaChaves (l : List Int) : List Int :=
  l.foldr insereOrdenado []

/-- The scan of `proxima_tarefa`: walk the sorted keys, dequeue from the
first non-empty queue, write the shrunken queue back. -/
def scanRemover (g : GerenciadorTarefas) : List Int → Option Tarefa × GerenciadorTarefas
  | [] => (none, g)
  | p :: ps =>
      let f := g.fila p
      if ¬ f.esta_vazia then
        ((f.remover).1, ⟨updateFila g.filas_prioridades p (f.remover).2⟩)
      else scanRemover g ps

/-- Embeds `GerenciadorTarefas.proxima_tarefa`: dequeue from the first non-empty
queue in ascending class order; `None` and no change when all are empty. -/
def GerenciadorTarefas.proxima_tarefa (g : GerenciadorTarefas) :
    Option Tarefa × GerenciadorTarefas :=
  scanRemover g (ordenaChaves g.chaves)

/-- The scan of `visualizar_proxima_tarefa`: same walk, but `frente`
instead of `remover`. -/
def scanFrente (g : GerenciadorTarefas) : List Int → Option Tarefa
  | [] => none
  | p :: ps =>
      let f := g.fila p
      if ¬ f.esta_vazia then f.frente else scanFrente g ps

/-- Embeds `GerenciadorTarefas.visualizar_proxima_tarefa`: peek at the task that
`proxima_tarefa` would return; the manager is returned unchanged, mirroring
that the method only reads. -/
def GerenciadorTarefas.visualizar_proxima_tarefa (g : GerenciadorTarefas) :
    Option Tarefa × GerenciadorTarefas :=
  (scanFrente g (ordenaChaves g.chaves), g)

/-- The statistics record returned by `estatisticas`. -/
structure Estatisticas where
  total : Nat
  por_prioridade : List (Int × Nat)
deriving DecidableEq, Repr

/-- Embeds `GerenciadorTarefas.estatisticas`: total task count and the per-class
size dict. -/
def GerenciadorTarefas.estatisticas (g : GerenciadorTarefas) : Estatisticas :=
  { total := (g.filas_prioridades.map (fun kv => kv.2.tamanho)).sum
    por_prioridade := g.filas_prioridades.map (fun kv => (kv.1, kv.2.tamanho)) }

/-!
Reachability layer: `GerenciadorTarefas.__init__` is the only constructor
and installs exactly the keys 1, 2, 3; no operation adds or removes a key.
`wf` captures this invariant, and a well-formed manager decomposes into its
three queues via `mk3`.
-/

/-- The manager whose three queues hold the given task lists. -/
def mk3 (q1 q2 q3 : List Tarefa) : GerenciadorTarefas :=
  ⟨[(1, ⟨q1⟩), (2, ⟨q2⟩), (3, ⟨q3⟩)]⟩

/-- Reachable-state invariant: the dict keys are exactly 1, 2, 3 in
insertion order. -/
def GerenciadorTarefas.wf (g : GerenciadorTarefas) : Prop :=
  g.chaves = [1, 2, 3]

lemma wf_init : GerenciadorTarefas.init.wf := rfl

lemma wf_mk3 (q1 q2 q3 : List Tarefa) : (mk3 q1 q2 q3).wf := rfl

lemma init_eq_mk3 : GerenciadorTarefas.init = mk3 [] [] [] := rfl

/-- A well-formed manager is `mk3` of its three queues. -/
lemma GerenciadorTarefas.wf.decomp {g : GerenciadorTarefas} (h : g.wf) :
    ∃ q1 q2 q3, g = mk3 q1 q2 q3 := by
  obtain ⟨l⟩ := g
  simp only [GerenciadorTarefas.wf, GerenciadorTarefas.chaves] at h
  match l, h with
  | [(1, ⟨q1⟩), (2, ⟨q2⟩), (3, ⟨q3⟩)], _ => exact ⟨q1, q2, q3, rfl⟩

lemma fila_mk3_1 (q1 q2 q3 : List Tarefa) : (mk3 q1 q2 q3).fila 1 = ⟨q1⟩ := rfl

lemma fila_mk3_2 (q1 q2 q3 : List Tarefa) : (mk3 q1 q2 q3).fila 2 = ⟨q2⟩ := rfl

lemma fila_mk3_3 (q1 q2 q3 : List Tarefa) : (mk3 q1 q2 q3).fila 3 = ⟨q3⟩ := rfl

lemma ordenaChaves_123 : ordenaChaves [1, 2, 3] = [1, 2, 3] := rfl

lemma proxima_mk3_cons1 (a : Tarefa) (as q2 q3 : List Tarefa) :
    (mk3 (a :: as) q2 q3).proxima_tarefa = (some a, mk3 as q2 q3) := rfl

lemma proxima_mk3_cons2 (a : Tarefa) (as q3 : List Tarefa) :
    (mk3 [] (a :: as) q3).proxima_tarefa = (some a, mk3 [] as q3) := rfl

lemma proxima_mk3_cons3 (a : Tarefa) (as : List Tarefa) :
    (mk3 [] [] (a :: as)).proxima_tarefa = (some a, mk3 [] [] as) := rfl

lemma proxima_mk3_nil : (mk3 [] [] []).proxima_tarefa = (none, mk3 [] [] []) := rfl

lemma total_mk3 (q1 q2 q3 : List Tarefa) :
    (mk3 q1 q2 q3).estatisticas.total = q1.length + q2.length + q3.length := by
  simp [mk3, GerenciadorTarefas.estatisticas, FilaTarefas.tamanho]
  omega

/-- Submitting a class-1 task to a decomposed manager appends it to queue 1. -/
lemma adicionar_mk3_1 (q1 q2 q3 : List Tarefa) (t : Tarefa) (h : t.prioridade = 1) :
    (mk3 q1 q2 q3).adicionar_tarefa t = (true, mk3 (q1 ++ [t]) q2 q3) := by
  simp [GerenciadorTarefas.adicionar_tarefa, mk3, h, updateFila, FilaTarefas.adicionar,
    List.lookup]

/-- Submitting a class-2 task to a decomposed manager appends it to queue 2. -/
lemma adicionar_mk3_2 (q1 q2 q3 : List Tarefa) (t : Tarefa) (h : t.prioridade = 2) :
    (mk3 q1 q2 q3).adicionar_tarefa t = (true, mk3 q1 (q2 ++ [t]) q3) := by
  simp [GerenciadorTarefas.adicionar_tarefa, mk3, h, updateFila, FilaTarefas.adicionar,
    List.lookup]

/-- Submitting a class-3 task to a decomposed manager appends it to queue 3. -/
lemma adicionar_mk3_3 (q1 q2 q3 : List Tarefa) (t : Tarefa) (h : t.prioridade = 3) :
    (mk3 q1 q2 q3).adicionar_tarefa t = (true, mk3 q1 q2 (q3 ++ [t])) := by
  simp [GerenciadorTarefas.adicionar_tarefa, mk3, h, updateFila, FilaTarefas.adicionar,
    List.lookup]

/-- A driver that calls `proxima_tarefa` repeatedly, collecting the returned
tasks, stopping at the empty signal or when the fuel runs out. -/
def drain : Nat → GerenciadorTarefas → List Tarefa
  | 0, _ => []
  | n + 1, g =>
      match g.proxima_tarefa with
      | (some t, g2) => t :: drain n g2
      | (none, _) => []

/-- Draining a decomposed manager with enough fuel yields queue 1, then
queue 2, then queue 3, each in FIFO order. -/
lemma drain_mk3 : ∀ (n : Nat) (q1 q2 q3 : List Tarefa),
    q1.length + q2.length + q3.length ≤ n →
    drain n (mk3 q1 q2 q3) = q1 ++ q2 ++ q3 := by
  intro n
  induction n with
  | zero =>
      intro q1 q2 q3 h
      have h1 : q1 = [] := List.length_eq_zero.mp (by omega)
      have h2 : q2 = [] := List.length_eq_zero.mp (by omega)
      have h3 : q3 = [] := List.length_eq_zero.mp (by omega)
      subst h1; subst h2; subst h3; rfl
  | succ n ih =>
      intro q1 q2 q3 h
      match q1, q2, q3 with
      | a :: as, q2, q3 =>
          have hrec := ih as q2 q3 (by simp at h ⊢; omega)
          simp [drain, proxima_mk3_cons1, hrec]
      | [], a :: as, q3 =>
          have hrec := ih [] as q3 (by simp at h ⊢; omega)
          simp [drain, proxima_mk3_cons2, hrec]
      | [], [], a :: as =>
          have hrec := ih [] [] as (by simp at h ⊢; omega)
          simp [drain, proxima_mk3_cons3, hrec]
      | [], [], [] =>
          simp [drain, proxima_mk3_nil]

/-- Draining a manager exactly as many times as it has pending tasks. -/
def drainAll (g : GerenciadorTarefas) : List Tarefa :=
  drain g.estatisticas.total g

/-- A driver that calls `proxima_tarefa` a fixed number of times, keeping
only the final state. -/
def iterProxima : Nat → GerenciadorTarefas → GerenciadorTarefas
  | 0, g => g
  | n + 1, g => iterProxima n (g.proxima_tarefa).2

/-- Enough `proxima_tarefa` calls empty every queue. -/
lemma iterProxima_mk3 : ∀ (n : Nat) (q1 q2 q3 : List Tarefa),
    q1.length + q2.length + q3.length ≤ n →
    iterProxima n (mk3 q1 q2 q3) = mk3 [] [] [] := by
  intro n
  induction n with
  | zero =>
      intro q1 q2 q3 h
      have h1 : q1 = [] := List.length_eq_zero.mp (by omega)
      have h2 : q2 = [] := List.length_eq_zero.mp (by omega)
      have h3 : q3 = [] := List.length_eq_zero.mp (by omega)
      subst h1; subst h2; subst h3; rfl
  | succ n ih =>
      intro q1 q2 q3 h
      match q1, q2, q3 with
      | a :: as, q2, q3 =>
          have hrec := ih as q2 q3 (by simp at h ⊢; omega)
          simp [iterProxima, proxima_mk3_cons1, hrec]
      | [], a :: as, q3 =>
          have hrec := ih [] as q3 (by simp at h ⊢; omega)
          simp [iterProxima, proxima_mk3_cons2, hrec]
      | [], [], a :: as =>
          have hrec := ih [] [] as (by simp at h ⊢; omega)
          simp [iterProxima, proxima_mk3_cons3, hrec]
      | [], [], [] =>
          simp [iterProxima, proxima_mk3_nil]
          exact ih [] [] [] (by simp)

/-- A key absent from the dict looks up to nothing. -/
lemma lookup_none_of_not_mem {l : List (Int × FilaTarefas)} {p : Int}
    (h : p ∉ l.map Prod.fst) : l.lookup p = none := by
  induction l with
  | nil => rfl
  | cons kv rest ih =>
      obtain ⟨k, v⟩ := kv
      simp only [List.map_cons, List.mem_cons, not_or] at h
      have hk : (p == k) = false := by simpa using h.1
      simp [List.lookup, hk, ih h.2]

/-- Looking a key up in the per-class size dict is looking its queue up and
taking that queue's size. -/
lemma lookup_map_tamanho : ∀ (l : List (Int × FilaTarefas)) (p : Int),
    (l.map fun kv => (kv.1, kv.2.tamanho)).lookup p
      = (l.lookup p).map FilaTarefas.tamanho := by
  intro l p
  induction l with
  | nil => rfl
  | cons kv rest ih =>
      obtain ⟨k, f⟩ := kv
      cases hpk : p == k <;> simp [List.lookup, hpk, ih]

/-- Writing a queue back under a present key makes that key look up to it. -/
lemma lookup_updateFila_self {l : List (Int × FilaTarefas)} {p : Int}
    (h : (l.lookup p).isSome) (f : FilaTarefas) :
    (updateFila l p f).lookup p = some f := by
  induction l with
  | nil => simp [List.lookup] at h
  | cons kv rest ih =>
      obtain ⟨k, v⟩ := kv
      cases hkp : k == p
      · have hk : k ≠ p := by simpa using hkp
        have hpk : (p == k) = false := by simpa using (Ne.symm hk)
        simp only [updateFila, hkp]
        simp only [List.lookup, hpk] at h ⊢
        exact ih (by simpa [List.lookup, hpk] using h)
      · have hk : k = p := by simpa using hkp
        subst hk
        simp [updateFila, List.lookup]

/-- Writing a queue back under one key leaves every other key's lookup
unchanged. -/
lemma lookup_updateFila_other {l : List (Int × FilaTarefas)} {p q : Int}
    (h : q ≠ p) (f : FilaTarefas) :
    (updateFila l p f).lookup q = l.lookup q := by
  induction l with
  | nil => rfl
  | cons kv rest ih =>
      obtain ⟨k, v⟩ := kv
      cases hkp : k == p
      · cases hqk : q == k <;>
          simp [updateFila, List.lookup, hkp, hqk, ih]
      · have hk : k = p := by simpa using hkp
        subst hk
        have hqk : (q == k) = false := by simpa using h
        simp [updateFila, List.lookup, hqk, ih]

/-- The peeking scan returns exactly what the dequeuing scan returns. -/
lemma scanFrente_eq_scanRemover (g : GerenciadorTarefas) : ∀ ks : List Int,
    scanFrente g ks = (scanRemover g ks).1 := by
  intro ks
  induction ks with
  | nil => rfl
  | cons p ps ih =>
      by_cases h : (g.fila p).esta_vazia <;>
        simp [scanFrente, scanRemover, h, ih, FilaTarefas.frente, FilaTarefas.remover]

/-- Driver operations over the manager's public interface: a submit or a
`next()` call. -/
inductive Op where
  | submeter (t : Tarefa)
  | avancar
deriving DecidableEq, Repr

/-- Whether an operation only submits recognized priority classes. -/
def opValida : Op → Bool
  | Op.submeter t => t.prioridade == 1 || t.prioridade == 2 || t.prioridade == 3
  | Op.avancar => true

/-- Run a list of driver operations from a state; also count the submits
that reported success and the `next()` calls that returned a task. -/
def exec : GerenciadorTarefas → List Op → GerenciadorTarefas × Nat × Nat
  | g, [] => (g, 0, 0)
  | g, Op.submeter t :: ops =>
      let r := g.adicionar_tarefa t
      let rest := exec r.2 ops
      (rest.1, (if r.1 then 1 else 0) + rest.2.1, rest.2.2)
  | g, Op.avancar :: ops =>
      let r := g.proxima_tarefa
      let rest := exec r.2 ops
      (rest.1, rest.2.1, (if r.1.isSome then 1 else 0) + rest.2.2)

/-- Along any run of valid driver operations from a well-formed state,
the pending total plus the count of served tasks equals the starting total
plus the count of accepted submissions. -/
lemma exec_conserva : ∀ (ops : List Op) (g : GerenciadorTarefas), g.wf →
    ops.all opValida = true →
    (exec g ops).1.wf ∧
    (exec g ops).1.estatisticas.total + (exec g ops).2.2
      = g.estatisticas.total + (exec g ops).2.1 := by
  intro ops
  induction ops with
  | nil =>
      intro g hwf _
      exact ⟨hwf, by simp [exec]⟩
  | cons op ops ih =>
      intro g hwf hv
      obtain ⟨q1, q2, q3, rfl⟩ := hwf.decomp
      simp only [List.all_cons, Bool.and_eq_true] at hv
      cases op with
      | submeter t =>
          have hval := hv.1
          simp only [opValida, Bool.or_eq_true, beq_iff_eq] at hval
          rcases hval with (h1 | h2) | h3
          · have hx := adicionar_mk3_1 q1 q2 q3 t h1
            have hrec := ih (mk3 (q1 ++ [t]) q2 q3) (wf_mk3 _ _ _) hv.2
            simp only [exec, hx, if_true]
            refine ⟨hrec.1, ?_⟩
            simp only [total_mk3, List.length_append, List.length_cons,
              List.length_nil] at hrec ⊢
            omega
          · have hx := adicionar_mk3_2 q1 q2 q3 t h2
            have hrec := ih (mk3 q1 (q2 ++ [t]) q3) (wf_mk3 _ _ _) hv.2
            simp only [exec, hx, if_true]
            refine ⟨hrec.1, ?_⟩
            simp only [total_mk3, List.length_append, List.length_cons,
              List.length_nil] at hrec ⊢
            omega
          · have hx := adicionar_mk3_3 q1 q2 q3 t h3
            have hrec := ih (mk3 q1 q2 (q3 ++ [t])) (wf_mk3 _ _ _) hv.2
            simp only [exec, hx, if_true]
            refine ⟨hrec.1, ?_⟩
            simp only [total_mk3, List.length_append, List.length_cons,
              List.length_nil] at hrec ⊢
            omega
      | avancar =>
          match q1, q2, q3 with
          | a :: as, q2, q3 =>
              have hrec := ih (mk3 as q2 q3) (wf_mk3 _ _ _) hv.2
              simp only [exec, proxima_mk3_cons1, Option.isSome_some, if_true]
              refine ⟨hrec.1, ?_⟩
              simp only [total_mk3, List.length_cons] at hrec ⊢
              omega
          | [], a :: as, q3 =>
              have hrec := ih (mk3 [] as q3) (wf_mk3 _ _ _) hv.2
              simp only [exec, proxima_mk3_cons2, Option.isSome_some, if_true]
              refine ⟨hrec.1, ?_⟩
              simp only [total_mk3, List.length_cons, List.length_nil] at hrec ⊢
              omega
          | [], [], a :: as =>
              have hrec := ih (mk3 [] [] as) (wf_mk3 _ _ _) hv.2
              simp only [exec, proxima_mk3_cons3, Option.isSome_some, if_true]
              refine ⟨hrec.1, ?_⟩
              simp only [total_mk3, List.length_cons, List.length_nil] at hrec ⊢
              omega
          | [], [], [] =>
              have hrec := ih (mk3 [] [] []) (wf_mk3 _ _ _) hv.2
              simp only [exec, proxima_mk3_nil, Option.isSome_none,
                Bool.false_eq_true, if_false]
              refine ⟨hrec.1, ?_⟩
              simp only [total_mk3, List.length_nil] at hrec ⊢
              omega

/-- The element sitting right after a prefix is found at the prefix's
length. -/
lemma getElem_at_length (pre : List Tarefa) (x : Tarefa) (rest : List Tarefa) :
    (pre ++ x :: rest)[pre.length]? = some x := by
  induction pre with
  | nil => simp
  | cons a as ih => simpa using ih

/-- The element two places after a prefix is found at the prefix's length
plus one. -/
lemma getElem_at_length_succ (pre : List Tarefa) (x y : Tarefa) (rest : List Tarefa) :
    (pre ++ x :: y :: rest)[pre.length + 1]? = some y := by
  induction pre with
  | nil => simp
  | cons a as ih => simpa using ih

/-- Claim C1: strict cross-class order. In every reachable manager state,
`proxima_tarefa` returns the head of the queue of the numerically smallest
recognized class whose queue is non-empty; in particular a pending
high-priority (smaller-number) task is served before any pending
lower-priority one, whatever the submission order. -/
theorem claim_C1_proxima_classe_minima (g : GerenciadorTarefas) (hwf : g.wf)
    (k : Int) (hk : k ∈ g.chaves) (hne : (g.fila k).tarefas ≠ [])
    (hmin : ∀ j ∈ g.chaves, j < k → (g.fila j).tarefas = []) :
    (g.proxima_tarefa).1 = (g.fila k).tarefas.head? := by
  obtain ⟨q1, q2, q3, rfl⟩ := hwf.decomp
  have hks : (mk3 q1 q2 q3).chaves = [1, 2, 3] := rfl
  rw [hks] at hk hmin
  simp only [List.mem_cons, List.not_mem_nil, or_false] at hk
  rcases hk with h1 | h2 | h3
  · subst h1
    rw [fila_mk3_1] at hne ⊢
    match q1, hne with
    | a :: as, _ => simp [proxima_mk3_cons1]
  · subst h2
    have hq1 : q1 = [] := by
      have := hmin 1 (by simp) (by norm_num)
      simpa [fila_mk3_1] using this
    subst hq1
    rw [fila_mk3_2] at hne ⊢
    match q2, hne with
    | a :: as, _ => simp [proxima_mk3_cons2]
  · subst h3
    have hq1 : q1 = [] := by
      have := hmin 1 (by simp) (by norm_num)
      simpa [fila_mk3_1] using this
    have hq2 : q2 = [] := by
      have := hmin 2 (by simp) (by norm_num)
      simpa [fila_mk3_2] using this
    subst hq1
    subst hq2
    rw [fila_mk3_3] at hne ⊢
    match q3, hne with
    | a :: as, _ => simp [proxima_mk3_cons3]

theorem claim_C1_witness :
    ((mk3 [] [⟨"B", "d", 2⟩] []).proxima_tarefa).1
      = ((mk3 [] [⟨"B", "d", 2⟩] []).fila 2).tarefas.head? :=
  claim_C1_proxima_classe_minima (mk3 [] [⟨"B", "d", 2⟩] []) rfl 2
    (by decide) (by decide) (by decide)

/-- The manager obtained from a fresh one by submitting a class-1 task
named nA, then a class-2 task named nB, then a class-1 task named nC. -/
def estadoC3 (nA dA nB dB nC dC : String) : GerenciadorTarefas :=
  (((GerenciadorTarefas.init.adicionar_tarefa ⟨nA, dA, 1⟩).2.adicionar_tarefa
      ⟨nB, dB, 2⟩).2.adicionar_tarefa ⟨nC, dC, 1⟩).2

/-- Claim C3: example trace. From a fresh manager, submitting tasks named
A (class 1), B (class 2), C (class 1) in that order and then calling
`proxima_tarefa` three times yields A, then C, then B, after which
`estatisticas` reports total 0 and per-class counts 1 ↦ 0, 2 ↦ 0, 3 ↦ 0. -/
theorem claim_C3_exemplo (nA dA nB dB nC dC : String) :
    ((estadoC3 nA dA nB dB nC dC).proxima_tarefa).1 = some ⟨nA, dA, 1⟩ ∧
    (((estadoC3 nA dA nB dB nC dC).proxima_tarefa).2.proxima_tarefa).1
      = some ⟨nC, dC, 1⟩ ∧
    ((((estadoC3 nA dA nB dB nC dC).proxima_tarefa).2.proxima_tarefa).2.proxima_tarefa).1
      = some ⟨nB, dB, 2⟩ ∧
    ((((estadoC3 nA dA nB dB nC dC).proxima_tarefa).2.proxima_tarefa).2.proxima_tarefa).2.estatisticas
      = ⟨0, [(1, 0), (2, 0), (3, 0)]⟩ := by
  have hs : estadoC3 nA dA nB dB nC dC
      = mk3 [⟨nA, dA, 1⟩, ⟨nC, dC, 1⟩] [⟨nB, dB, 2⟩] [] := by
    simp [estadoC3, init_eq_mk3, adicionar_mk3_1, adicionar_mk3_2]
  rw [hs, proxima_mk3_cons1]
  simp only [proxima_mk3_cons1, proxima_mk3_cons2]
  exact ⟨trivial, trivial, trivial, rfl⟩

/-- Claim C4: invalid class rejection with atomicity. Submitting a task
whose priority is not a recognized class reports failure and returns the
manager completely unchanged, so every queue and the statistics are as
before and further calls behave as on the original manager. -/
theorem claim_C4_rejeicao_invalida (g : GerenciadorTarefas) (t : Tarefa)
    (h : t.prioridade ∉ g.chaves) :
    g.adicionar_tarefa t = (false, g) ∧
    ((g.adicionar_tarefa t).2).estatisticas = g.estatisticas := by
  have hl : g.filas_prioridades.lookup t.prioridade = none :=
    lookup_none_of_not_mem (by simpa [GerenciadorTarefas.chaves] using h)
  constructor
  · simp [GerenciadorTarefas.adicionar_tarefa, hl]
  · simp [GerenciadorTarefas.adicionar_tarefa, hl]

theorem claim_C4_witness :
    GerenciadorTarefas.init.adicionar_tarefa ⟨"X", "d", 99⟩
        = (false, GerenciadorTarefas.init) ∧
    ((GerenciadorTarefas.init.adicionar_tarefa ⟨"X", "d", 99⟩).2).estatisticas
        = GerenciadorTarefas.init.estatisticas :=
  claim_C4_rejeicao_invalida GerenciadorTarefas.init ⟨"X", "d", 99⟩ (by decide)

/-- Claim C2: FIFO within a class. From any reachable state, submitting A
and then B with the same recognized priority class (nothing removed in
between), the run of `proxima_tarefa` calls that serves all pending tasks
returns A at a strictly earlier call than B. -/
theorem claim_C2_fifo_mesma_classe (g : GerenciadorTarefas) (hwf : g.wf)
    (A B : Tarefa) (p : Int) (hA : A.prioridade = p) (hB : B.prioridade = p)
    (hp : p ∈ g.chaves) :
    ∃ m n : Nat, m < n ∧
      (drainAll (((g.adicionar_tarefa A).2).adicionar_tarefa B).2)[m]? = some A ∧
      (drainAll (((g.adicionar_tarefa A).2).adicionar_tarefa B).2)[n]? = some B := by
  obtain ⟨q1, q2, q3, rfl⟩ := hwf.decomp
  have hks : (mk3 q1 q2 q3).chaves = [1, 2, 3] := rfl
  rw [hks] at hp
  simp only [List.mem_cons, List.not_mem_nil, or_false] at hp
  rcases hp with h1 | h2 | h3
  · subst h1
    have e1 := adicionar_mk3_1 q1 q2 q3 A hA
    have e2 := adicionar_mk3_1 (q1 ++ [A]) q2 q3 B hB
    have hg : (((mk3 q1 q2 q3).adicionar_tarefa A).2.adicionar_tarefa B).2
        = mk3 ((q1 ++ [A]) ++ [B]) q2 q3 := by
      rw [e1]
      exact congrArg Prod.snd e2
    have hd : drainAll (mk3 ((q1 ++ [A]) ++ [B]) q2 q3)
        = ((q1 ++ [A]) ++ [B]) ++ q2 ++ q3 := by
      unfold drainAll
      rw [total_mk3]
      exact drain_mk3 _ _ _ _ (le_of_eq rfl)
    rw [hg, hd]
    simp only [List.append_assoc, List.singleton_append, List.cons_append]
    exact ⟨q1.length, q1.length + 1, by omega,
      getElem_at_length q1 A (B :: (q2 ++ q3)),
      getElem_at_length_succ q1 A B (q2 ++ q3)⟩
  · subst h2
    have e1 := adicionar_mk3_2 q1 q2 q3 A hA
    have e2 := adicionar_mk3_2 q1 (q2 ++ [A]) q3 B hB
    have hg : (((mk3 q1 q2 q3).adicionar_tarefa A).2.adicionar_tarefa B).2
        = mk3 q1 ((q2 ++ [A]) ++ [B]) q3 := by
      rw [e1]
      exact congrArg Prod.snd e2
    have hd : drainAll (mk3 q1 ((q2 ++ [A]) ++ [B]) q3)
        = q1 ++ ((q2 ++ [A]) ++ [B]) ++ q3 := by
      unfold drainAll
      rw [total_mk3]
      exact drain_mk3 _ _ _ _ (le_of_eq rfl)
    rw [hg, hd]
    simp only [List.append_assoc, List.singleton_append, List.cons_append]
    refine ⟨(q1 ++ q2).length, (q1 ++ q2).length + 1, by omega, ?_, ?_⟩
    · rw [← List.append_assoc]
      exact getElem_at_length (q1 ++ q2) A (B :: q3)
    · rw [← List.append_assoc]
      exact getElem_at_length_succ (q1 ++ q2) A B q3
  · subst h3
    have e1 := adicionar_mk3_3 q1 q2 q3 A hA
    have e2 := adicionar_mk3_3 q1 q2 (q3 ++ [A]) B hB
    have hg : (((mk3 q1 q2 q3).adicionar_tarefa A).2.adicionar_tarefa B).2
        = mk3 q1 q2 ((q3 ++ [A]) ++ [B]) := by
      rw [e1]
      exact congrArg Prod.snd e2
    have hd : drainAll (mk3 q1 q2 ((q3 ++ [A]) ++ [B]))
        = q1 ++ q2 ++ ((q3 ++ [A]) ++ [B]) := by
      unfold drainAll
      rw [total_mk3]
      exact drain_mk3 _ _ _ _ (le_of_eq rfl)
    rw [hg, hd]
    simp only [List.append_assoc, List.singleton_append, List.cons_append]
    refine ⟨((q1 ++ q2) ++ q3).length, ((q1 ++ q2) ++ q3).length + 1, by omega, ?_, ?_⟩
    · rw [← List.append_assoc, ← List.append_assoc]
      exact getElem_at_length ((q1 ++ q2) ++ q3) A [B]
    · rw [← List.append_assoc, ← List.append_assoc]
      exact getElem_at_length_succ ((q1 ++ q2) ++ q3) A B []

theorem claim_C2_witness :
    ∃ m n : Nat, m < n ∧
      (drainAll (((GerenciadorTarefas.init.adicionar_tarefa ⟨"A", "d", 1⟩).2).adicionar_tarefa
        ⟨"B", "d", 1⟩).2)[m]? = some ⟨"A", "d", 1⟩ ∧
      (drainAll (((GerenciadorTarefas.init.adicionar_tarefa ⟨"A", "d", 1⟩).2).adicionar_tarefa
        ⟨"B", "d", 1⟩).2)[n]? = some ⟨"B", "d", 1⟩ :=
  claim_C2_fifo_mesma_classe GerenciadorTarefas.init rfl ⟨"A", "d", 1⟩ ⟨"B", "d", 1⟩ 1
    rfl rfl (by decide)

/-- Claim C5: conservation invariant. For every sequence of valid-class
submits interleaved with `proxima_tarefa` calls run from a fresh manager,
the final `estatisticas` total equals the number of successful submits
minus the number of calls that returned a task (never negative). -/
theorem claim_C5_conservacao (ops : List Op) (hv : ops.all opValida = true) :
    (exec GerenciadorTarefas.init ops).2.2 ≤ (exec GerenciadorTarefas.init ops).2.1 ∧
    (exec GerenciadorTarefas.init ops).1.estatisticas.total
      = (exec GerenciadorTarefas.init ops).2.1
        - (exec GerenciadorTarefas.init ops).2.2 := by
  have h := (exec_conserva ops GerenciadorTarefas.init wf_init hv).2
  have h0 : GerenciadorTarefas.init.estatisticas.total = 0 := rfl
  omega

/-- A sample operation sequence: two valid submits and one retrieval. -/
def opsC5 : List Op :=
  [Op.submeter ⟨"a", "d", 2⟩, Op.submeter ⟨"b", "d", 1⟩, Op.avancar]

theorem claim_C5_witness :
    (exec GerenciadorTarefas.init opsC5).2.2 ≤ (exec GerenciadorTarefas.init opsC5).2.1 ∧
    (exec GerenciadorTarefas.init opsC5).1.estatisticas.total
      = (exec GerenciadorTarefas.init opsC5).2.1
        - (exec GerenciadorTarefas.init opsC5).2.2 :=
  claim_C5_conservacao opsC5 (by decide)

/-- The key list survives taking per-entry sizes. -/
lemma map_fst_map_tamanho : ∀ l : List (Int × FilaTarefas),
    (l.map fun kv => (kv.1, kv.2.tamanho)).map Prod.fst = l.map Prod.fst := by
  intro l
  induction l with
  | nil => rfl
  | cons kv rest ih => simp [ih]

/-- Claim C6: statistics correctness. In every manager state, the reported
total is the sum of all class queues' sizes, the per-class dict has exactly
one entry per recognized class in the configured order, and each entry's
value is that class's current queue size. -/
theorem claim_C6_estatisticas (g : GerenciadorTarefas) :
    g.estatisticas.total = (g.filas_prioridades.map (fun kv => kv.2.tamanho)).sum ∧
    g.estatisticas.por_prioridade.map Prod.fst = g.chaves ∧
    ∀ p : Int, g.estatisticas.por_prioridade.lookup p
      = (g.filas_prioridades.lookup p).map FilaTarefas.tamanho :=
  ⟨rfl, map_fst_map_tamanho g.filas_prioridades,
    fun p => lookup_map_tamanho g.filas_prioridades p⟩

/-- Claim C7: `visualizar_proxima_tarefa` is pure and idempotent — it
leaves the manager (hence the statistics) unchanged, two consecutive calls
return the same task, and it returns exactly the task `proxima_tarefa`
would return, peeking instead of dequeuing. -/
theorem claim_C7_visualizar (g : GerenciadorTarefas) :
    (g.visualizar_proxima_tarefa).2 = g ∧
    ((g.visualizar_proxima_tarefa).2.visualizar_proxima_tarefa).1
      = (g.visualizar_proxima_tarefa).1 ∧
    (g.visualizar_proxima_tarefa).2.estatisticas = g.estatisticas ∧
    (g.visualizar_proxima_tarefa).1 = (g.proxima_tarefa).1 :=
  ⟨rfl, rfl, rfl, scanFrente_eq_scanRemover g (ordenaChaves g.chaves)⟩

/-- Claim C8: exhaustion. From any reachable state, after as many
`proxima_tarefa` calls as there are pending tasks, the total is 0 and a
further `proxima_tarefa` call returns the empty signal, leaving the
manager unchanged. -/
theorem claim_C8_exaustao (g : GerenciadorTarefas) (hwf : g.wf) :
    (iterProxima g.estatisticas.total g).estatisticas.total = 0 ∧
    (iterProxima g.estatisticas.total g).proxima_tarefa
      = (none, iterProxima g.estatisticas.total g) := by
  obtain ⟨q1, q2, q3, rfl⟩ := hwf.decomp
  have h := iterProxima_mk3 ((mk3 q1 q2 q3).estatisticas.total) q1 q2 q3
    (le_of_eq (total_mk3 q1 q2 q3).symm)
  rw [h]
  exact ⟨rfl, proxima_mk3_nil⟩

theorem claim_C8_witness :
    (iterProxima (mk3 [⟨"w", "d", 1⟩] [] []).estatisticas.total
        (mk3 [⟨"w", "d", 1⟩] [] [])).estatisticas.total = 0 ∧
    (iterProxima (mk3 [⟨"w", "d", 1⟩] [] []).estatisticas.total
        (mk3 [⟨"w", "d", 1⟩] [] [])).proxima_tarefa
      = (none, iterProxima (mk3 [⟨"w", "d", 1⟩] [] []).estatisticas.total
          (mk3 [⟨"w", "d", 1⟩] [] [])) :=
  claim_C8_exaustao (mk3 [⟨"w", "d", 1⟩] [] []) rfl

/-- Claim C9: task rendering labels. A task's rendering maps priority 1 to
the high label, 2 to the medium label, 3 to the low label and any other
value to the unknown label, followed by the description. -/
theorem claim_C9_render (t : Tarefa) :
    Tarefa.render t = "Tarefa: " ++ t.nome ++ " (Prioridade: " ++
      (if t.prioridade = 1 then "Alta" else if t.prioridade = 2 then "Média"
        else if t.prioridade = 3 then "Baixa" else "Desconhecida") ++
      ")\nDescrição: " ++ t.descricao := by
  by_cases h1 : t.prioridade = 1
  · simp [Tarefa.render, prioridade_texto, h1, List.lookup]
  · by_cases h2 : t.prioridade = 2
    · simp [Tarefa.render, prioridade_texto, h2, List.lookup]
    · by_cases h3 : t.prioridade = 3
      · simp [Tarefa.render, prioridade_texto, h3, List.lookup]
      · have b1 : (t.prioridade == 1) = false := by simpa using h1
        have b2 : (t.prioridade == 2) = false := by simpa using h2
        have b3 : (t.prioridade == 3) = false := by simpa using h3
        simp [Tarefa.render, prioridade_texto, List.lookup, b1, b2, b3, h1, h2, h3]

/-- Claim C10: submit frame effect. A successful submit reports success,
appends the task at the tail of exactly the queue of its priority class,
and leaves every other key's queue unchanged. -/
theorem claim_C10_frame (g : GerenciadorTarefas) (t : Tarefa) (f : FilaTarefas)
    (h : g.filas_prioridades.lookup t.prioridade = some f) :
    (g.adicionar_tarefa t).1 = true ∧
    ((g.adicionar_tarefa t).2).filas_prioridades.lookup t.prioridade
      = some ⟨f.tarefas ++ [t]⟩ ∧
    ∀ p : Int, p ≠ t.prioridade →
      ((g.adicionar_tarefa t).2).filas_prioridades.lookup p
        = g.filas_prioridades.lookup p := by
  refine ⟨?_, ?_, ?_⟩
  · simp [GerenciadorTarefas.adicionar_tarefa, h]
  · simp only [GerenciadorTarefas.adicionar_tarefa, h]
    exact lookup_updateFila_self (by simp [h]) _
  · intro p hp
    simp only [GerenciadorTarefas.adicionar_tarefa, h]
    exact lookup_updateFila_other hp _

theorem claim_C10_witness :
    (GerenciadorTarefas.init.adicionar_tarefa ⟨"x", "y", 2⟩).1 = true ∧
    ((GerenciadorTarefas.init.adicionar_tarefa ⟨"x", "y", 2⟩).2).filas_prioridades.lookup 2
      = some ⟨FilaTarefas.nova.tarefas ++ [⟨"x", "y", 2⟩]⟩ ∧
    ((GerenciadorTarefas.init.adicionar_tarefa ⟨"x", "y", 2⟩).2).filas_prioridades.lookup 3
      = GerenciadorTarefas.init.filas_prioridades.lookup 3 := by
  have h := claim_C10_frame GerenciadorTarefas.init ⟨"x", "y", 2⟩ FilaTarefas.nova rfl
  exact ⟨h.1, h.2.1, h.2.2 3 (by decide)⟩
